import Mathlib

/-!
Verification of the xjpath module (xjpath/xjpath.py): a dotted-path lookup
language over nested Python data structures (dicts, lists, tuples, scalars).

Shallow embedding conventions:
* Python strings are modelled as `List Char`.
* Python values are the inductive `JVal`; a Python `dict` is an
  insertion-ordered association list (Python 3.7+ dict order); the
  float payload is an opaque `Nat` code (0 encodes 0.0) - float values are
  never computed with in this module, only stored, compared by isinstance
  and (irrelevantly) tested for truthiness.
* Exceptions are modelled with `Except`; `XJPathError` and `TypeError`
  carry the static part of the Python message (interpolated data omitted).
* In-place mutation (`data_obj[top_key] = val_type()` and mutation through
  aliases returned by recursive calls) is modelled by state passing: every
  engine call returns a `LookupResult` holding both the Python return value
  (or the raised exception) and the post-call state of `data_obj`.
  A Python `None` sub-path (`leftover`) and the empty string are both falsy
  and are treated identically by the code, so `None` is collapsed to `[]`.
* General recursion of the engine is embedded with a fuel parameter;
  the wrapper `path_lookup` supplies fuel `xj_path.length + 1`, which is
  proven sufficient (`path_lookup_f_suff`): every recursive step strictly
  shortens the path.
-/

set_option maxRecDepth 4000

/-- A Python runtime value as far as the xjpath module is concerned. -/
inductive JVal where
  | vnull : JVal
  | vint : Int → JVal
  | vfloat : Nat → JVal
  | vstr : List Char → JVal
  | vlist : List JVal → JVal
  | vtuple : List JVal → JVal
  | vdict : List (List Char × JVal) → JVal

/-- One of the type filters of the _KEY_SPLIT table. -/
inductive TyFilter where
  | tstr | tint | tfloat | tdict | tlist | ttuple
deriving DecidableEq

/-- Exceptions raised by the module: XJPathError (module-defined) and the
builtin TypeError that `in` / subscription raise on unsuitable objects.
Only the static part of the message text is carried. -/
inductive PyErr where
  | xjPathError : String → PyErr
  | typeError : String → PyErr
deriving DecidableEq

/-- Result of one engine call: the Python return value `(value, exists)` or
the raised exception, together with the post-call state of `data_obj`
(visible to the caller because mutation is in place). -/
structure LookupResult where
  res : Except PyErr (JVal × Bool)
  obj : JVal

/-! ### Small Python-semantics helpers -/

/-- Python truthiness of a value (empty containers, 0, 0.0, '' and None are
falsy). The float payload 0 encodes 0.0. -/
def py_truthy : JVal → Bool
  | .vnull => false
  | .vint n => n != 0
  | .vfloat c => c != 0
  | .vstr s => !s.isEmpty
  | .vlist l => !l.isEmpty
  | .vtuple l => !l.isEmpty
  | .vdict d => !d.isEmpty

/-- `isinstance(v, t)` for the six filter types. -/
def isinstance : JVal → TyFilter → Bool
  | .vstr _, .tstr => true
  | .vint _, .tint => true
  | .vfloat _, .tfloat => true
  | .vdict _, .tdict => true
  | .vlist _, .tlist => true
  | .vtuple _, .ttuple => true
  | _, _ => false

/-- `val_type()`: the fresh empty instance a type filter constructs. -/
def tyFresh : TyFilter → JVal
  | .tstr => .vstr []
  | .tint => .vint 0
  | .tfloat => .vfloat 0
  | .tdict => .vdict []
  | .tlist => .vlist []
  | .ttuple => .vtuple []

/-- `val_type is not None and not isinstance(value, val_type)`. -/
def typeMismatch : Option TyFilter → JVal → Bool
  | none, _ => false
  | some t, v => !(isinstance v t)

/-- Python `==` between an arbitrary value and a string key. -/
def jvalIsStr : JVal → List Char → Bool
  | .vstr s, k => s = k
  | _, _ => false

/-- `key in dict`: membership among the keys. -/
def dict_contains : List (List Char × JVal) → List Char → Bool
  | [], _ => false
  | e :: rest, k => e.1 = k || dict_contains rest k

/-- `dict[key]` for a present key (first matching entry). -/
def dict_get : List (List Char × JVal) → List Char → JVal
  | [], _ => .vnull
  | e :: rest, k => if e.1 = k then e.2 else dict_get rest k

/-- `dict[key] = v`: replace in place, or append preserving insertion order. -/
def dict_set : List (List Char × JVal) → List Char → JVal → List (List Char × JVal)
  | [], k, v => [(k, v)]
  | e :: rest, k, v => if e.1 = k then (k, v) :: rest else e :: dict_set rest k v

/-- Substring test (`needle in haystack` on Python strings). -/
def py_substr (needle : List Char) : List Char → Bool
  | [] => needle.isEmpty
  | c :: rest => List.isPrefixOf needle (c :: rest) || py_substr needle rest

/-- `top_key in data_obj`: key membership for dicts, element membership for
lists/tuples, substring test for strings, TypeError otherwise. -/
def py_contains (data_obj : JVal) (key : List Char) : Except PyErr Bool :=
  match data_obj with
  | .vdict entries => .ok (dict_contains entries key)
  | .vlist elems => .ok (elems.any (fun e => jvalIsStr e key))
  | .vtuple elems => .ok (elems.any (fun e => jvalIsStr e key))
  | .vstr s => .ok (py_substr key s)
  | _ => .error (.typeError "argument of type is not iterable")

/-- `data_obj[top_key]` with a string key (reached only when `in` held):
works on dicts, TypeError on sequences and strings. -/
def py_getitem_str (data_obj : JVal) (key : List Char) : Except PyErr JVal :=
  match data_obj with
  | .vdict entries => .ok (dict_get entries key)
  | _ => .error (.typeError "indices must be integers")

/-- `data_obj[top_key] = v` on a dict (the only object the code assigns into). -/
def py_setitem_str (data_obj : JVal) (key : List Char) (v : JVal) : JVal :=
  match data_obj with
  | .vdict entries => .vdict (dict_set entries key v)
  | x => x

/-- `seq[i]` with Python signed-index semantics; `none` is IndexError. -/
def py_index (l : List JVal) (i : Int) : Option JVal :=
  if 0 ≤ i then l.get? i.toNat
  else if (-i).toNat ≤ l.length then l.get? (l.length - (-i).toNat) else none

/-- Write back at a signed index (used to model mutation through the alias
`value = data_obj[array_idx]`; only applied after a successful `py_index`). -/
def py_setIdx (l : List JVal) (i : Int) (v : JVal) : List JVal :=
  if 0 ≤ i then l.set i.toNat v
  else l.set (l.length - (-i).toNat) v

/-! ### Tokenizer: split (escape-aware, with maxsplit) and unescape -/

/-- Loop of `split`: `word` is the output buffer, `ms` the remaining
maxsplit budget (-1 meaning unlimited, as in Python). -/
def splitAux (sep_char escape_char : Char) : List Char → Int → List Char → List (List Char)
  | [], _, word => [word]
  | c :: rest, ms, word =>
    if c = escape_char then
      match rest with
      | [] => [word ++ [c]]
      | d :: rest2 =>
        if d = sep_char then splitAux sep_char escape_char rest2 ms (word ++ [d])
        else splitAux sep_char escape_char rest2 ms (word ++ [c, d])
    else if c = sep_char then
      if ms - 1 = 0 then [word, rest]
      else word :: splitAux sep_char escape_char rest (ms - 1) []
    else splitAux sep_char escape_char rest ms (word ++ [c])

/-- `split(inp_str, sep_char, maxsplit, escape_char)`: separates a string on
a character taking escapes into account; once maxsplit is exhausted the
remainder is yielded raw. -/
def split (inp_str : List Char) (sep_char : Char) (maxsplit : Int) (escape_char : Char) :
    List (List Char) :=
  splitAux sep_char escape_char inp_str maxsplit []

/-- Unconditional one-step unfolding of the split loop on a cons cell. -/
theorem splitAux_cons (sep_char escape_char c : Char) (rest : List Char) (ms : Int)
    (word : List Char) :
    splitAux sep_char escape_char (c :: rest) ms word =
      if c = escape_char then
        (match rest with
         | [] => [word ++ [c]]
         | d :: rest2 =>
           if d = sep_char then splitAux sep_char escape_char rest2 ms (word ++ [d])
           else splitAux sep_char escape_char rest2 ms (word ++ [c, d]))
      else if c = sep_char then
        (if ms - 1 = 0 then [word, rest]
         else word :: splitAux sep_char escape_char rest (ms - 1) [])
      else splitAux sep_char escape_char rest ms (word ++ [c]) := by
  rw [splitAux.eq_def]

/-- `unescape(in_str, escape_char)`: drop each escape character, keeping the
following character verbatim; a trailing lone escape is dropped (the
StopIteration is swallowed). -/
def unescape : List Char → Char → List Char
  | [], _ => []
  | c :: rest, esc =>
    if c = esc then
      match rest with
      | [] => []
      | d :: rest2 => d :: unescape rest2 esc
    else c :: unescape rest esc

/-! ### Type-suffix extraction and index resolution -/

/-- The _KEY_SPLIT table: marker string to filtered type. -/
def keySplitLookup (l : List Char) : Option TyFilter :=
  if l = ['$'] then some .tstr
  else if l = ['#'] then some .tint
  else if l = ['%'] then some .tfloat
  else if l = ['\x7b', '\x7d'] then some .tdict
  else if l = ['[', ']'] then some .tlist
  else if l = ['(', ')'] then some .ttuple
  else none

/-- `key_name[-i:]` (the last `i` characters, for `i ≤ length`). -/
def lastN (l : List Char) (i : Nat) : List Char := (l.reverse.take i).reverse

/-- `key_name[:-i]` (all but the last `i` characters). -/
def dropLastN (l : List Char) (i : Nat) : List Char := (l.reverse.drop i).reverse

/-- The backward escape-counting loop of _clean_key_type: scanning from the
end of (the already marker-stripped) `key_name[:-i]`, i.e. forward over its
reversal, count consecutive escape characters. -/
def esc_cnt_rev (escape_char : Char) : List Char → Nat
  | [] => 0
  | c :: rest => if c = escape_char then 1 + esc_cnt_rev escape_char rest else 0

/-- `_clean_key_type(key_name, escape_char)`: the `for i in (2, 1)` loop
unrolled. Note the early `return None, key_name` when `len(key_name) < i`:
a 1-character token (such as a bare marker) never reaches the 1-character
marker check. -/
def _clean_key_type (key_name : List Char) (escape_char : Char) :
    Option TyFilter × List Char :=
  if key_name.length < 2 then (none, key_name)
  else
    match keySplitLookup (lastN key_name 2) with
    | some t =>
      if key_name.length ≤ 2 then (some t, [])
      else if esc_cnt_rev escape_char (dropLastN key_name 2).reverse % 2 = 0 then
        (some t, dropLastN key_name 2)
      else (none, key_name)
    | none =>
      if key_name.length < 1 then (none, key_name)
      else
        match keySplitLookup (lastN key_name 1) with
        | some t =>
          if key_name.length ≤ 1 then (some t, [])
          else if esc_cnt_rev escape_char (dropLastN key_name 1).reverse % 2 = 0 then
            (some t, dropLastN key_name 1)
          else (none, key_name)
        | none => (none, key_name)

/-- `str.isdigit()` (ASCII digits; nonempty). -/
def isDigitStr (l : List Char) : Bool := !l.isEmpty && l.all Char.isDigit

/-- Numeric value of a digit string. -/
def digitsToNat (l : List Char) : Nat :=
  l.foldl (fun a c => a * 10 + (c.toNat - '0'.toNat)) 0

/-- `_get_array_index(array_path)`: translate @first/@last/@N/@-N into a
signed index; anything else is an 'Unknown index reference' error. -/
def _get_array_index (array_path : List Char) : Except PyErr Int :=
  match array_path with
  | '@' :: rest =>
    if rest = ['l', 'a', 's', 't'] then .ok (-1)
    else if rest = ['f', 'i', 'r', 's', 't'] then .ok 0
    else if isDigitStr rest then .ok (digitsToNat rest)
    else
      match rest with
      | '-' :: ds =>
        if isDigitStr ds then .ok (-(digitsToNat ds : Int))
        else .error (.xjPathError "Unknown index reference")
      | _ => .error (.xjPathError "Unknown index reference")
  | _ => .error (.xjPathError "Array index must start from @ symbol.")

/-- Acceptance of Python `int(s)` for a string: optional surrounding
whitespace, an optional sign, then digits (underscore grouping not
modelled; no claim depends on it). -/
def py_int_ok (l : List Char) : Bool :=
  let t := ((l.dropWhile Char.isWhitespace).reverse.dropWhile Char.isWhitespace).reverse
  match t with
  | '+' :: ds => isDigitStr ds
  | '-' :: ds => isDigitStr ds
  | ds => isDigitStr ds

/-- Token loop of `validate_path`. -/
def validate_tokens : List (List Char) → Except PyErr Unit
  | [] => .ok ()
  | tok :: rest =>
    if tok = ['*'] then validate_tokens rest
    else if tok.headD ' ' = '@' then
      if tok = ['@', 'f', 'i', 'r', 's', 't'] ∨ tok = ['@', 'l', 'a', 's', 't'] then
        validate_tokens rest
      else if py_int_ok (tok.drop 1) then validate_tokens rest
      else .error (.xjPathError "Array index must be either integer or @first or @last")
    else validate_tokens rest

/-- `validate_path(xj_path)`: syntax-only check of a path string (the
non-string-input check is outside a typed embedding). -/
def validate_path (xj_path : List Char) : Except PyErr Unit :=
  validate_tokens (split xj_path '.' (-1) '\\')

/-! ### The recursive lookup engine

The body of each source function is factored into a non-recursive step
function taking the recursive entry point (`recur`) as a parameter;
`path_lookup_f` ties the knot with a fuel argument, and the public
wrappers at the end supply sufficient fuel. -/

/-- Loop of _full_sub_array over a list: returns the collected values of the
elements whose sub-lookup existed (or the first raised error), together with
the post-call elements (sub-lookups can mutate elements in place). -/
def subArrayList_go (recur : JVal → List Char → Bool → LookupResult)
    (xj_path : List Char) (create_dict_path : Bool) :
    List JVal → Except PyErr (List JVal) × List JVal
  | [] => (.ok [], [])
  | d :: rest =>
    let r := recur d xj_path create_dict_path
    match r.res with
    | .error e => (.error e, r.obj :: rest)
    | .ok (val, exists_) =>
      let (acc, rest2) := subArrayList_go recur xj_path create_dict_path rest
      match acc with
      | .error e => (.error e, r.obj :: rest2)
      | .ok vals => (.ok (if exists_ then val :: vals else vals), r.obj :: rest2)

/-- Loop of _full_sub_array over dict values (insertion order). -/
def subArrayDict_go (recur : JVal → List Char → Bool → LookupResult)
    (xj_path : List Char) (create_dict_path : Bool) :
    List (List Char × JVal) → Except PyErr (List JVal) × List (List Char × JVal)
  | [] => (.ok [], [])
  | e :: rest =>
    let r := recur e.2 xj_path create_dict_path
    match r.res with
    | .error er => (.error er, (e.1, r.obj) :: rest)
    | .ok (val, exists_) =>
      let (acc, rest2) := subArrayDict_go recur xj_path create_dict_path rest
      match acc with
      | .error er => (.error er, (e.1, r.obj) :: rest2)
      | .ok vals => (.ok (if exists_ then val :: vals else vals), (e.1, r.obj) :: rest2)

/-- `_full_sub_array(data_obj, xj_path, create_dict_path)`: the '*' marker.
Lists and dicts are iterated (a non-empty sub-path filters to the elements
whose lookup existed); anything else yields `(None, False)`. The result is
always a fresh tuple. -/
def _full_sub_array_go (recur : JVal → List Char → Bool → LookupResult)
    (data_obj : JVal) (xj_path : List Char) (create_dict_path : Bool) : LookupResult :=
  match data_obj with
  | .vlist elems =>
    if xj_path ≠ [] then
      match subArrayList_go recur xj_path create_dict_path elems with
      | (.ok vals, elems2) => ⟨.ok (.vtuple vals, true), .vlist elems2⟩
      | (.error e, elems2) => ⟨.error e, .vlist elems2⟩
    else ⟨.ok (.vtuple elems, true), .vlist elems⟩
  | .vdict entries =>
    if xj_path ≠ [] then
      match subArrayDict_go recur xj_path create_dict_path entries with
      | (.ok vals, entries2) => ⟨.ok (.vtuple vals, true), .vdict entries2⟩
      | (.error e, entries2) => ⟨.error e, .vdict entries2⟩
    else ⟨.ok (.vtuple (entries.map (fun e => e.2)), true), .vdict entries⟩
  | d => ⟨.ok (.vnull, false), d⟩

/-- `_single_array_element(data_obj, xj_path, array_path, create_dict_path)`:
the '@' marker. The type suffix is stripped first, the index resolved
(possibly raising), then a truthy list/tuple is indexed with IndexError
mapped to `(None, False)`; a non-sequence (or falsy) object raises if a
type filter was requested and yields `(None, False)` otherwise. -/
def _single_array_element_go (recur : JVal → List Char → Bool → LookupResult)
    (data_obj : JVal) (xj_path : List Char) (array_path : List Char)
    (create_dict_path : Bool) : LookupResult :=
  match _clean_key_type array_path '\\' with
  | (val_type, cleaned) =>
    match _get_array_index cleaned with
    | .error e => ⟨.error e, data_obj⟩
    | .ok array_idx =>
      match data_obj with
      | .vlist elems =>
        if elems.isEmpty then
          if val_type.isSome then
            ⟨.error (.xjPathError "Expected the list element type, but found"), data_obj⟩
          else ⟨.ok (.vnull, false), data_obj⟩
        else
          match py_index elems array_idx with
          | none => ⟨.ok (.vnull, false), data_obj⟩
          | some value =>
            if typeMismatch val_type value then
              ⟨.error (.xjPathError "Index array of type does not match expected type"),
               data_obj⟩
            else if xj_path ≠ [] then
              let r := recur value xj_path create_dict_path
              ⟨r.res, .vlist (py_setIdx elems array_idx r.obj)⟩
            else ⟨.ok (value, true), data_obj⟩
      | .vtuple elems =>
        if elems.isEmpty then
          if val_type.isSome then
            ⟨.error (.xjPathError "Expected the list element type, but found"), data_obj⟩
          else ⟨.ok (.vnull, false), data_obj⟩
        else
          match py_index elems array_idx with
          | none => ⟨.ok (.vnull, false), data_obj⟩
          | some value =>
            if typeMismatch val_type value then
              ⟨.error (.xjPathError "Index array of type does not match expected type"),
               data_obj⟩
            else if xj_path ≠ [] then
              let r := recur value xj_path create_dict_path
              ⟨r.res, .vtuple (py_setIdx elems array_idx r.obj)⟩
            else ⟨.ok (value, true), data_obj⟩
      | d =>
        if val_type.isSome then
          ⟨.error (.xjPathError "Expected the list element type, but found"), d⟩
        else ⟨.ok (.vnull, false), d⟩

/-- One unfolding of `path_lookup(data_obj, xj_path, create_dict_path)`:
empty/'.' path is the identity lookup; otherwise split off the first
segment (maxsplit=1) and dispatch on '*', '@...' or a plain key. -/
def pathStep (recur : JVal → List Char → Bool → LookupResult)
    (data_obj : JVal) (xj_path : List Char) (create_dict_path : Bool) : LookupResult :=
  if xj_path = [] ∨ xj_path = ['.'] then ⟨.ok (data_obj, true), data_obj⟩
  else
    let top_key := (split xj_path '.' 1 '\\').headD []
    let leftover := (split xj_path '.' 1 '\\').getD 1 []
    if top_key = ['*'] then _full_sub_array_go recur data_obj leftover create_dict_path
    else if top_key.headD ' ' = '@' then
      _single_array_element_go recur data_obj leftover top_key create_dict_path
    else
      match _clean_key_type top_key '\\' with
      | (val_type, cleaned) =>
        let key := unescape cleaned '\\'
        match py_contains data_obj key with
        | .error e => ⟨.error e, data_obj⟩
        | .ok true =>
          match py_getitem_str data_obj key with
          | .error e => ⟨.error e, data_obj⟩
          | .ok value =>
            if typeMismatch val_type value then
              ⟨.error (.xjPathError "Key expects type, but found value type"), data_obj⟩
            else if leftover ≠ [] then
              let r := recur value leftover create_dict_path
              ⟨r.res, py_setitem_str data_obj key r.obj⟩
            else ⟨.ok (value, true), data_obj⟩
        | .ok false =>
          match val_type with
          | some t =>
            match data_obj with
            | .vdict entries =>
              if create_dict_path then
                if leftover ≠ [] then
                  let r := recur (tyFresh t) leftover create_dict_path
                  ⟨r.res, py_setitem_str (.vdict (dict_set entries key (tyFresh t))) key r.obj⟩
                else ⟨.ok (tyFresh t, true), .vdict (dict_set entries key (tyFresh t))⟩
              else ⟨.ok (.vnull, false), .vdict entries⟩
            | d => ⟨.error (.xjPathError "Accessed object must be a dict type for the key"), d⟩
          | none => ⟨.ok (.vnull, false), data_obj⟩

/-- Fuelled engine; fuel 0 is unreachable from the wrappers (see
`path_lookup_f_suff`). -/
def path_lookup_f : Nat → JVal → List Char → Bool → LookupResult
  | 0, d, _, _ => ⟨.error (.xjPathError "recursion limit"), d⟩
  | n + 1, d, p, c => pathStep (path_lookup_f n) d p c

/-- `path_lookup(data_obj, xj_path, create_dict_path)`. -/
def path_lookup (data_obj : JVal) (xj_path : List Char) (create_dict_path : Bool) :
    LookupResult :=
  path_lookup_f (xj_path.length + 1) data_obj xj_path create_dict_path

/-- `_full_sub_array` as called on the full engine. -/
def _full_sub_array (data_obj : JVal) (xj_path : List Char) (create_dict_path : Bool) :
    LookupResult :=
  _full_sub_array_go path_lookup data_obj xj_path create_dict_path

/-- `_single_array_element` as called on the full engine. -/
def _single_array_element (data_obj : JVal) (xj_path : List Char)
    (array_path : List Char) (create_dict_path : Bool) : LookupResult :=
  _single_array_element_go path_lookup data_obj xj_path array_path create_dict_path

/-- `strict_path_lookup(data_obj, xj_path, force_type)`: non-strict lookup in
read mode, turning absence into an XJPathError and checking an optional
final expected type. -/
def strict_path_lookup (data_obj : JVal) (xj_path : List Char)
    (force_type : Option TyFilter) : Except PyErr JVal :=
  match (path_lookup data_obj xj_path false).res with
  | .error e => .error e
  | .ok (value, exists_) =>
    if exists_ then
      match force_type with
      | some t =>
        if !(isinstance value t) then .error (.xjPathError "Found value is a wrong type")
        else .ok value
      | none => .ok value
    else .error (.xjPathError "Path does not exist")

/-! ### Tokenizer lemmas -/

/-- With maxsplit 1, the raw remainder yielded by `split` is strictly
shorter than the input (the separator that triggered it was consumed). -/
theorem splitAux_one_len (sep esc : Char) :
    ∀ (n : Nat) (l : List Char), l.length ≤ n →
      ∀ (word a b : List Char) (t : List (List Char)),
        splitAux sep esc l 1 word = a :: b :: t → b.length < l.length := by
  intro n
  induction n with
  | zero =>
    intro l hl word a b t h
    have : l = [] := List.length_eq_zero.mp (Nat.le_zero.mp hl)
    subst this
    simp [splitAux] at h
  | succ n ih =>
    intro l hl word a b t h
    cases l with
    | nil => simp [splitAux] at h
    | cons c rest =>
      rw [splitAux.eq_def] at h
      simp only [List.length_cons] at hl
      by_cases hc : c = esc
      · cases rest with
        | nil => simp [hc] at h
        | cons d rest2 =>
          by_cases hd : d = sep
          · simp only [hc, if_pos rfl, if_pos hd] at h
            have hb := ih rest2 (by simp at hl ⊢; omega) _ _ _ _ h
            simp
            omega
          · simp only [hc, if_pos rfl, if_neg hd] at h
            have hb := ih rest2 (by simp at hl ⊢; omega) _ _ _ _ h
            simp
            omega
      · by_cases hs : c = sep
        · simp only [if_neg hc, if_pos hs] at h
          norm_num at h
          obtain ⟨-, hb, -⟩ := h
          subst hb
          simp
        · simp only [if_neg hc, if_neg hs] at h
          have hb := ih rest (by omega) _ _ _ _ h
          simp
          omega

/-- The leftover sub-path extracted by the engine is strictly shorter than
the path being processed. -/
theorem split_getD_len (p : List Char) (hp : p ≠ []) :
    ((split p '.' 1 '\\').getD 1 []).length < p.length := by
  have hlen : 0 < p.length := List.length_pos.mpr hp
  cases h : split p '.' 1 '\\' with
  | nil => simpa using hlen
  | cons a t =>
    cases t with
    | nil => simpa using hlen
    | cons b t2 =>
      have := splitAux_one_len '.' '\\' p.length p (le_refl _) [] a b t2 h
      simpa using this

/-! ### Congruence of the step function in its recursive argument -/

theorem subArrayList_go_congr (r1 r2 : JVal → List Char → Bool → LookupResult)
    (q : List Char) (c : Bool) (h : ∀ d c', r1 d q c' = r2 d q c') :
    ∀ elems, subArrayList_go r1 q c elems = subArrayList_go r2 q c elems := by
  intro elems
  induction elems with
  | nil => rfl
  | cons d rest ih =>
    simp only [subArrayList_go, h d c, ih]

theorem subArrayDict_go_congr (r1 r2 : JVal → List Char → Bool → LookupResult)
    (q : List Char) (c : Bool) (h : ∀ d c', r1 d q c' = r2 d q c') :
    ∀ entries, subArrayDict_go r1 q c entries = subArrayDict_go r2 q c entries := by
  intro entries
  induction entries with
  | nil => rfl
  | cons e rest ih =>
    simp only [subArrayDict_go, h e.2 c, ih]

theorem _full_sub_array_go_congr (r1 r2 : JVal → List Char → Bool → LookupResult)
    (q : List Char) (h : ∀ d c', r1 d q c' = r2 d q c') :
    ∀ d c, _full_sub_array_go r1 d q c = _full_sub_array_go r2 d q c := by
  intro d c
  unfold _full_sub_array_go
  cases d with
  | vlist elems => simp only [subArrayList_go_congr r1 r2 q c h]
  | vdict entries => simp only [subArrayDict_go_congr r1 r2 q c h]
  | _ => rfl

theorem _single_array_element_go_congr (r1 r2 : JVal → List Char → Bool → LookupResult)
    (q : List Char) (h : ∀ d c', r1 d q c' = r2 d q c') :
    ∀ d tok c, _single_array_element_go r1 d q tok c = _single_array_element_go r2 d q tok c := by
  intro d tok c
  unfold _single_array_element_go
  rcases hct : _clean_key_type tok '\\' with ⟨vt, cl⟩
  simp only [hct]
  rcases hgi : _get_array_index cl with e | idx
  · rfl
  · cases d with
    | vlist elems =>
      rcases hpi : py_index elems idx with - | value
      · simp [hpi]
      · simp only [hpi, h value c]
    | vtuple elems =>
      rcases hpi : py_index elems idx with - | value
      · simp [hpi]
      · simp only [hpi, h value c]
    | _ => rfl

theorem pathStep_congr (r1 r2 : JVal → List Char → Bool → LookupResult)
    (p : List Char)
    (h : ∀ d' q c', q.length < p.length → r1 d' q c' = r2 d' q c') :
    ∀ d c, pathStep r1 d p c = pathStep r2 d p c := by
  intro d c
  unfold pathStep
  by_cases hb : p = [] ∨ p = ['.']
  · simp [hb]
  · have hp : p ≠ [] := by
      rintro rfl
      exact hb (Or.inl rfl)
    have hlo := split_getD_len p hp
    have hrec : ∀ d' c', r1 d' ((split p '.' 1 '\\').getD 1 []) c'
        = r2 d' ((split p '.' 1 '\\').getD 1 []) c' :=
      fun d' c' => h d' _ c' hlo
    simp only [if_neg hb]
    by_cases hstar : (split p '.' 1 '\\').headD [] = ['*']
    · simp only [if_pos hstar]
      exact _full_sub_array_go_congr r1 r2 _ hrec d c
    · simp only [if_neg hstar]
      by_cases hat : ((split p '.' 1 '\\').headD []).headD ' ' = '@'
      · simp only [if_pos hat]
        exact _single_array_element_go_congr r1 r2 _ hrec d _ c
      · simp only [if_neg hat]
        rcases hct : _clean_key_type ((split p '.' 1 '\\').headD []) '\\' with ⟨vt, cl⟩
        simp only [hct]
        rcases hpc : py_contains d (unescape cl '\\') with e | b
        · rfl
        · cases b with
          | true =>
            simp only []
            rcases hgi : py_getitem_str d (unescape cl '\\') with e | value
            · rfl
            · simp only [hrec value c]
          | false =>
            cases vt with
            | none => rfl
            | some t =>
              cases d with
              | vdict entries => simp only [hrec (tyFresh t) c]
              | _ => rfl

/-! ### Fuel sufficiency: the wrapper fuel is enough -/

theorem path_lookup_f_suff_aux :
    ∀ (L : Nat) (p : List Char), p.length = L → ∀ (n : Nat), p.length < n →
      ∀ d c, path_lookup_f n d p c = path_lookup d p c := by
  intro L
  induction L using Nat.strong_induction_on with
  | _ L ih =>
    intro p hL n hn d c
    obtain ⟨m, rfl⟩ : ∃ m, n = m + 1 := ⟨n - 1, by omega⟩
    show pathStep (path_lookup_f m) d p c = pathStep (path_lookup_f p.length) d p c
    apply pathStep_congr
    intro d' q c' hq
    have h1 := ih q.length (by omega) q rfl m (by omega) d' c'
    have h2 := ih q.length (by omega) q rfl p.length (by omega) d' c'
    rw [h1, h2]

/-- Any fuel beyond the path length computes the same result as
`path_lookup`: the fuel embedding is faithful. -/
theorem path_lookup_f_suff (n : Nat) (p : List Char) (h : p.length < n)
    (d : JVal) (c : Bool) : path_lookup_f n d p c = path_lookup d p c :=
  path_lookup_f_suff_aux p.length p rfl n h d c

/-- One-step unfolding of the wrapper. -/
theorem path_lookup_unfold (d : JVal) (p : List Char) (c : Bool) :
    path_lookup d p c = pathStep (path_lookup_f p.length) d p c := rfl

/-! ### Read mode never mutates -/

theorem list_set_get? : ∀ (l : List JVal) (n : Nat) (v : JVal),
    l[n]? = some v → l.set n v = l := by
  intro l
  induction l with
  | nil => intro n v h; simp at h
  | cons a rest ih =>
    intro n v h
    cases n with
    | zero => simp at h; simp [h]
    | succ n => simp at h ⊢; exact ih n v h

theorem py_setIdx_self (l : List JVal) (i : Int) (v : JVal)
    (h : py_index l i = some v) : py_setIdx l i v = l := by
  unfold py_index at h
  unfold py_setIdx
  simp only [List.get?_eq_getElem?] at h
  by_cases hi : 0 ≤ i
  · rw [if_pos hi] at h
    rw [if_pos hi]
    exact list_set_get? l i.toNat v h
  · rw [if_neg hi] at h
    rw [if_neg hi]
    by_cases hle : (-i).toNat ≤ l.length
    · rw [if_pos hle] at h
      exact list_set_get? l _ v h
    · rw [if_neg hle] at h
      simp at h
  
theorem dict_set_self : ∀ (es : List (List Char × JVal)) (k : List Char),
    dict_contains es k = true → dict_set es k (dict_get es k) = es := by
  intro es
  induction es with
  | nil => intro k h; simp [dict_contains] at h
  | cons e rest ih =>
    intro k h
    simp only [dict_contains, Bool.or_eq_true] at h
    by_cases hk : e.1 = k
    · obtain ⟨e1, e2⟩ := e
      simp only at hk
      subst hk
      simp [dict_set, dict_get]
    · have hrest : dict_contains rest k = true := by
        rcases h with h | h
        · exact absurd (by simpa using h) hk
        · exact h
      simp [dict_set, dict_get, hk, ih k hrest]

theorem subArrayList_go_obj (recur : JVal → List Char → Bool → LookupResult)
    (q : List Char) (c : Bool) (h : ∀ d, (recur d q c).obj = d) :
    ∀ elems, (subArrayList_go recur q c elems).2 = elems := by
  intro elems
  induction elems with
  | nil => rfl
  | cons d rest ih =>
    simp only [subArrayList_go]
    rcases hres : (recur d q c).res with e | ⟨val, ex⟩
    · simp only [hres, h d]
    · rcases hsub : subArrayList_go recur q c rest with ⟨acc, rest2⟩
      have hr2 : rest2 = rest := by
        have := ih
        rw [hsub] at this
        exact this
      rcases acc with e | vals <;> simp [hres, hsub, h d, hr2]

theorem subArrayDict_go_obj (recur : JVal → List Char → Bool → LookupResult)
    (q : List Char) (c : Bool) (h : ∀ d, (recur d q c).obj = d) :
    ∀ entries, (subArrayDict_go recur q c entries).2 = entries := by
  intro entries
  induction entries with
  | nil => rfl
  | cons e rest ih =>
    simp only [subArrayDict_go]
    rcases hres : (recur e.2 q c).res with er | ⟨val, ex⟩
    · simp only [hres, h e.2]
    · rcases hsub : subArrayDict_go recur q c rest with ⟨acc, rest2⟩
      have hr2 : rest2 = rest := by
        have := ih
        rw [hsub] at this
        exact this
      rcases acc with er | vals <;> simp [hres, hsub, h e.2, hr2]

theorem _full_sub_array_go_obj (recur : JVal → List Char → Bool → LookupResult)
    (q : List Char) (c : Bool) (h : ∀ d, (recur d q c).obj = d) :
    ∀ d, (_full_sub_array_go recur d q c).obj = d := by
  intro d
  unfold _full_sub_array_go
  cases d with
  | vlist elems =>
    by_cases hq : q ≠ []
    · simp only [if_pos hq]
      rcases hsub : subArrayList_go recur q c elems with ⟨acc, elems2⟩
      have he : elems2 = elems := by
        have := subArrayList_go_obj recur q c h elems
        rw [hsub] at this
        exact this
      rcases acc with e | vals <;> simp [he]
    · simp only [if_neg hq]
  | vdict entries =>
    by_cases hq : q ≠ []
    · simp only [if_pos hq]
      rcases hsub : subArrayDict_go recur q c entries with ⟨acc, entries2⟩
      have he : entries2 = entries := by
        have := subArrayDict_go_obj recur q c h entries
        rw [hsub] at this
        exact this
      rcases acc with e | vals <;> simp [he]
    · simp only [if_neg hq]
  | _ => rfl

theorem _single_array_element_go_obj (recur : JVal → List Char → Bool → LookupResult)
    (q : List Char) (c : Bool) (h : ∀ d, (recur d q c).obj = d) :
    ∀ d tok, (_single_array_element_go recur d q tok c).obj = d := by
  intro d tok
  unfold _single_array_element_go
  rcases hct : _clean_key_type tok '\\' with ⟨vt, cl⟩
  simp only [hct]
  rcases hgi : _get_array_index cl with e | idx
  · rfl
  · cases d with
    | vlist elems =>
      by_cases hemp : elems.isEmpty
      · simp [hemp]
        rcases vt with - | t <;> simp
      · simp only [hemp, Bool.false_eq_true, if_false]
        rcases hpi : py_index elems idx with - | value
        · simp
        · simp only []
          by_cases hmis : typeMismatch vt value
          · simp [hmis]
          · simp only [hmis, Bool.false_eq_true, if_false]
            by_cases hq : q ≠ []
            · simp [hq, h value, py_setIdx_self elems idx value hpi]
            · simp [hq]
    | vtuple elems =>
      by_cases hemp : elems.isEmpty
      · simp [hemp]
        rcases vt with - | t <;> simp
      · simp only [hemp, Bool.false_eq_true, if_false]
        rcases hpi : py_index elems idx with - | value
        · simp
        · simp only []
          by_cases hmis : typeMismatch vt value
          · simp [hmis]
          · simp only [hmis, Bool.false_eq_true, if_false]
            by_cases hq : q ≠ []
            · simp [hq, h value, py_setIdx_self elems idx value hpi]
            · simp [hq]
    | _ =>
      rcases vt with - | t <;> simp

theorem pathStep_obj (recur : JVal → List Char → Bool → LookupResult)
    (p : List Char) (h : ∀ d q, (recur d q false).obj = d) :
    ∀ d, (pathStep recur d p false).obj = d := by
  intro d
  unfold pathStep
  by_cases hb : p = [] ∨ p = ['.']
  · simp [hb]
  · simp only [if_neg hb]
    by_cases hstar : (split p '.' 1 '\\').headD [] = ['*']
    · simp only [if_pos hstar]
      exact _full_sub_array_go_obj recur _ false (fun d' => h d' _) d
    · simp only [if_neg hstar]
      by_cases hat : ((split p '.' 1 '\\').headD []).headD ' ' = '@'
      · simp only [if_pos hat]
        exact _single_array_element_go_obj recur _ false (fun d' => h d' _) d _
      · simp only [if_neg hat]
        rcases hct : _clean_key_type ((split p '.' 1 '\\').headD []) '\\' with ⟨vt, cl⟩
        simp only [hct]
        cases d with
        | vdict entries =>
          simp only [py_contains]
          rcases hc : dict_contains entries (unescape cl '\\') with - | -
          · simp only []
            cases vt with
            | none => rfl
            | some t => rfl
          · simp only [py_getitem_str]
            by_cases hmis : typeMismatch vt (dict_get entries (unescape cl '\\'))
            · simp [hmis]
            · simp only [hmis, Bool.false_eq_true, if_false]
              by_cases hq : (split p '.' 1 '\\').getD 1 [] = []
              · rw [if_neg (not_not_intro hq)]
              · rw [if_pos hq]
                show py_setitem_str (JVal.vdict entries) (unescape cl '\\') _ = JVal.vdict entries
                rw [h]
                simp only [py_setitem_str]
                rw [dict_set_self entries _ hc]
        | vlist elems =>
          simp only [py_contains]
          rcases hc : elems.any (fun e => jvalIsStr e (unescape cl '\\')) with - | -
          · simp only []
            cases vt with
            | none => rfl
            | some t => rfl
          · simp only [py_getitem_str]
        | vtuple elems =>
          simp only [py_contains]
          rcases hc : elems.any (fun e => jvalIsStr e (unescape cl '\\')) with - | -
          · simp only []
            cases vt with
            | none => rfl
            | some t => rfl
          · simp only [py_getitem_str]
        | vstr s =>
          simp only [py_contains]
          rcases hc : py_substr (unescape cl '\\') s with - | -
          · simp only []
            cases vt with
            | none => rfl
            | some t => rfl
          · simp only [py_getitem_str]
        | vnull => rfl
        | vint n => rfl
        | vfloat c => rfl

theorem path_lookup_f_obj : ∀ (n : Nat) (d : JVal) (p : List Char),
    (path_lookup_f n d p false).obj = d := by
  intro n
  induction n with
  | zero => intro d p; rfl
  | succ n ih => intro d p; exact pathStep_obj (path_lookup_f n) p (fun d' q => ih d' q) d

/-! ## Claim theorems -/

/-- Claim C8: for every data tree D and every path P, path_lookup in read
mode (create_dict_path=false) leaves D entirely unchanged, whether the
lookup finds the value, reports absence, or raises an error. -/
theorem c8_read_mode_no_mutation : ∀ (d : JVal) (p : List Char),
    (path_lookup d p false).obj = d :=
  fun d p => path_lookup_f_obj (p.length + 1) d p

/-- Claim C1: whenever path_lookup returns (v, true), strict_path_lookup
returns the same v; whenever path_lookup returns with exists=false,
strict_path_lookup raises the not-found XJPathError. -/
theorem c1_strict_agrees_with_lookup :
    ∀ (d : JVal) (p : List Char) (v : JVal) (ex : Bool) (d2 : JVal),
      path_lookup d p false = ⟨.ok (v, ex), d2⟩ →
      (ex = true → strict_path_lookup d p none = .ok v) ∧
      (ex = false →
        strict_path_lookup d p none = .error (.xjPathError "Path does not exist")) := by
  intro d p v ex d2 h
  unfold strict_path_lookup
  rw [h]
  constructor
  · rintro rfl
    rfl
  · rintro rfl
    rfl

/-- Witness for C1: a found key is returned by the strict lookup, an absent
one raises the not-found error. -/
theorem c1_strict_agrees_with_lookup_witness :
    strict_path_lookup (.vdict [(['a'], .vint 1)]) ['a'] none = .ok (.vint 1) ∧
    strict_path_lookup (.vdict []) ['b'] none
      = .error (.xjPathError "Path does not exist") :=
  ⟨(c1_strict_agrees_with_lookup (.vdict [(['a'], .vint 1)]) ['a'] (.vint 1) true
      (.vdict [(['a'], .vint 1)]) rfl).1 rfl,
   (c1_strict_agrees_with_lookup (.vdict []) ['b'] .vnull false (.vdict []) rfl).2 rfl⟩

/-- Claim C10: validate_path accepts the path consisting of the single token
with the '@' marker followed by '+5' (int() parses '+5'), while the index
resolver and hence path_lookup on any sequence raise the 'Unknown index
reference' XJPathError for the same token. -/
theorem c10_validate_accepts_index_resolver_rejects :
    validate_path ['@', '+', '5'] = .ok () ∧
    _get_array_index ['@', '+', '5'] = .error (.xjPathError "Unknown index reference") ∧
    ∀ (elems : List JVal) (c : Bool),
      (path_lookup (.vlist elems) ['@', '+', '5'] c).res
        = .error (.xjPathError "Unknown index reference") := by
  refine ⟨rfl, rfl, fun elems c => rfl⟩

/-- The backward escape-counting loop agrees with a takeWhile description. -/
theorem esc_cnt_rev_eq_takeWhile (e : Char) :
    ∀ l, esc_cnt_rev e l = (l.takeWhile (fun c => c = e)).length := by
  intro l
  induction l with
  | nil => rfl
  | cons c rest ih =>
    by_cases hc : c = e
    · simp [esc_cnt_rev, List.takeWhile, hc, ih]
      omega
    · simp [esc_cnt_rev, List.takeWhile, hc]

/-- Claim C4, counterexample: a token that is exactly a one-character marker
is returned unchanged with no type filter, not stripped to the empty key. -/
theorem c4_counterexample_bare_marker :
    _clean_key_type ['$'] '\\' = (none, ['$']) ∧
    _clean_key_type ['$'] '\\' ≠ (some .tstr, ([] : List Char)) :=
  ⟨rfl, by decide⟩

/-- Claim C4 (amended): the extractor checks the two-character markers first
and then the one-character markers; a detected marker is stripped (with its
type returned) exactly when the number of consecutive escape characters
immediately preceding it is even, and an odd count returns no type filter
with the token unchanged. A token of length one, however, never reaches the
one-character marker check (the extractor returns early on tokens shorter
than two characters), so a bare one-character marker yields no type filter
and the token unchanged. -/
theorem c4_type_suffix_extractor (k : List Char) :
    (∀ m, 2 ≤ k.length → keySplitLookup (lastN k 2) = some m →
      ((((dropLastN k 2).reverse.takeWhile (fun c => c = '\\')).length % 2 = 0 →
        _clean_key_type k '\\' = (some m, dropLastN k 2)) ∧
       (((dropLastN k 2).reverse.takeWhile (fun c => c = '\\')).length % 2 = 1 →
        _clean_key_type k '\\' = (none, k))))
    ∧ (∀ m, 2 ≤ k.length → keySplitLookup (lastN k 2) = none →
        keySplitLookup (lastN k 1) = some m →
      ((((dropLastN k 1).reverse.takeWhile (fun c => c = '\\')).length % 2 = 0 →
        _clean_key_type k '\\' = (some m, dropLastN k 1)) ∧
       (((dropLastN k 1).reverse.takeWhile (fun c => c = '\\')).length % 2 = 1 →
        _clean_key_type k '\\' = (none, k))))
    ∧ (k.length = 1 → _clean_key_type k '\\' = (none, k)) := by
  refine ⟨?_, ?_, ?_⟩
  · intro m h2 hm
    unfold _clean_key_type
    rw [if_neg (by omega)]
    simp only [hm]
    constructor
    · intro hev
      by_cases hle : k.length ≤ 2
      · rw [if_pos hle]
        have hd : dropLastN k 2 = [] := by
          unfold dropLastN
          have : k.reverse.length ≤ 2 := by simp; omega
          rw [List.drop_eq_nil_of_le this]
          rfl
        rw [hd]
      · rw [if_neg hle, if_pos (by rw [esc_cnt_rev_eq_takeWhile]; omega)]
    · intro hodd
      have hle : ¬ k.length ≤ 2 := by
        intro hle
        have hd : dropLastN k 2 = [] := by
          unfold dropLastN
          have : k.reverse.length ≤ 2 := by simp; omega
          rw [List.drop_eq_nil_of_le this]
          rfl
        rw [hd] at hodd
        simp at hodd
      rw [if_neg hle, if_neg (by rw [esc_cnt_rev_eq_takeWhile]; omega)]
  · intro m h2 hm2 hm1
    unfold _clean_key_type
    rw [if_neg (by omega)]
    simp only [hm2]
    rw [if_neg (by omega)]
    simp only [hm1]
    constructor
    · intro hev
      rw [if_neg (by omega), if_pos (by rw [esc_cnt_rev_eq_takeWhile]; omega)]
    · intro hodd
      rw [if_neg (by omega), if_neg (by rw [esc_cnt_rev_eq_takeWhile]; omega)]
  · intro h1
    unfold _clean_key_type
    rw [if_pos (by omega)]

/-- Witness for C4: an unescaped one-character marker on a two-character
token is stripped; the same marker preceded by one escape is not. -/
theorem c4_type_suffix_extractor_witness :
    _clean_key_type ['a', '$'] '\\' = (some .tstr, ['a']) ∧
    _clean_key_type ['a', '\\', '$'] '\\' = (none, ['a', '\\', '$']) :=
  ⟨((c4_type_suffix_extractor ['a', '$']).2.1 .tstr (by decide) (by decide)
      (by decide)).1 (by decide),
   ((c4_type_suffix_extractor ['a', '\\', '$']).2.1 .tstr (by decide) (by decide)
      (by decide)).2 (by decide)⟩

/-- Claim C6, counterexample: on a non-iterable node (an integer), a plain
key without type filter raises TypeError (the membership test `'a' in 5`
fails), rather than returning (None, false). -/
theorem c6_counterexample_scalar_node :
    (path_lookup (.vint 5) ['a'] false).res
      = .error (.typeError "argument of type is not iterable") ∧
    (path_lookup (.vint 5) ['a'] false).res ≠ .ok (.vnull, false) := by
  refine ⟨rfl, ?_⟩
  intro h
  rw [show (path_lookup (.vint 5) ['a'] false).res
      = .error (.typeError "argument of type is not iterable") from rfl] at h
  simp at h

/-- Claim C6 (amended): when the current node is a Mapping and the head
segment is a plain key carrying no type filter, absence of the key makes
path_lookup return (None, false) without raising, in any mode. (On
non-iterable scalar nodes the membership test itself raises TypeError.) -/
theorem c6_plain_key_absence_is_silent :
    ∀ (p tok : List Char) (entries : List (List Char × JVal)) (c : Bool),
      ¬(p = [] ∨ p = ['.']) →
      (split p '.' 1 '\\').headD [] = tok →
      tok ≠ ['*'] → tok.headD ' ' ≠ '@' →
      (_clean_key_type tok '\\').1 = none →
      dict_contains entries (unescape (_clean_key_type tok '\\').2 '\\') = false →
      path_lookup (.vdict entries) p c = ⟨.ok (.vnull, false), .vdict entries⟩ := by
  intro p tok entries c hb htop hstar hat hvt habs
  rw [path_lookup_unfold]
  unfold pathStep
  rw [if_neg hb, htop, if_neg hstar, if_neg hat]
  rcases hct : _clean_key_type tok '\\' with ⟨vt, cl⟩
  rw [hct] at hvt habs
  simp only at hvt habs
  subst hvt
  simp only [hct, py_contains, habs]

/-- Witness for C6: looking up a missing plain key on a dict. -/
theorem c6_plain_key_absence_is_silent_witness :
    path_lookup (.vdict [(['y'], .vint 2)]) ['x'] false
      = ⟨.ok (.vnull, false), .vdict [(['y'], .vint 2)]⟩ :=
  c6_plain_key_absence_is_silent ['x'] ['x'] [(['y'], .vint 2)] false
    (by decide) rfl (by decide) (by decide) (by decide) (by decide)

/-- Claim C7, counterexample: on an empty sequence, an out-of-bounds index
segment that carries a type filter raises the list-element type XJPathError
instead of returning (None, false), and the strict lookup propagates that
type error rather than a not-found error. -/
theorem c7_counterexample_empty_seq_with_filter :
    (path_lookup (.vlist []) ['@', '0', '(', ')'] false).res
      = .error (.xjPathError "Expected the list element type, but found") ∧
    strict_path_lookup (.vlist []) ['@', '0', '(', ')'] none
      = .error (.xjPathError "Expected the list element type, but found") ∧
    (PyErr.xjPathError "Expected the list element type, but found")
      ≠ .xjPathError "Path does not exist" :=
  ⟨rfl, rfl, by decide⟩

/-- Claim C7 (amended): for an index segment whose resolved signed offset is
out of bounds of a Sequence node, path_lookup returns (None, false) and
strict_path_lookup raises the not-found XJPathError - provided the sequence
is non-empty or the segment carries no type filter (an empty sequence with
a type-filtered segment raises a type error instead). In particular this
holds for the tree [1,2,3] with path "@10". -/
theorem c7_out_of_bounds_index :
    (path_lookup (.vlist [.vint 1, .vint 2, .vint 3]) ['@', '1', '0'] false
        = ⟨.ok (.vnull, false), .vlist [.vint 1, .vint 2, .vint 3]⟩ ∧
     strict_path_lookup (.vlist [.vint 1, .vint 2, .vint 3]) ['@', '1', '0'] none
        = .error (.xjPathError "Path does not exist")) ∧
    ∀ (elems : List JVal) (tok : List Char) (vt : Option TyFilter) (cl : List Char)
      (i : Int),
      tok.headD ' ' = '@' →
      split tok '.' 1 '\\' = [tok] →
      _clean_key_type tok '\\' = (vt, cl) →
      _get_array_index cl = .ok i →
      py_index elems i = none →
      (elems ≠ [] ∨ vt = none) →
      (∀ c, path_lookup (.vlist elems) tok c = ⟨.ok (.vnull, false), .vlist elems⟩) ∧
      strict_path_lookup (.vlist elems) tok none
        = .error (.xjPathError "Path does not exist") := by
  refine ⟨⟨rfl, rfl⟩, ?_⟩
  intro elems tok vt cl i hat hsplit hct hgi hpi hguard
  have hpl : ∀ c, path_lookup (.vlist elems) tok c
      = ⟨.ok (.vnull, false), .vlist elems⟩ := by
    intro c
    cases tok with
    | nil => simp at hat
    | cons c0 tr =>
      simp only [List.headD] at hat
      subst hat
      rw [path_lookup_unfold]
      unfold pathStep
      rw [if_neg (by simp)]
      rw [hsplit]
      simp only [List.headD, List.getD]
      rw [if_neg (by simp)]
      rw [if_pos (by trivial)]
      unfold _single_array_element_go
      simp only [hct, hgi]
      cases elems with
      | nil =>
        have hvt : vt = none := by
          rcases hguard with h | h
          · exact absurd rfl h
          · exact h
        subst hvt
        rfl
      | cons e0 erest =>
        simp only [List.isEmpty_cons, Bool.false_eq_true, if_false, hpi]
  refine ⟨hpl, ?_⟩
  unfold strict_path_lookup
  rw [hpl false]
  rfl

/-- Witness for C7: index 5 on the one-element list is out of bounds. -/
theorem c7_out_of_bounds_index_witness :
    (∀ c, path_lookup (.vlist [.vint 1]) ['@', '5'] c
        = ⟨.ok (.vnull, false), .vlist [.vint 1]⟩) ∧
    strict_path_lookup (.vlist [.vint 1]) ['@', '5'] none
      = .error (.xjPathError "Path does not exist") :=
  c7_out_of_bounds_index.2 [.vint 1] ['@', '5'] none ['@', '5'] 5
    rfl rfl rfl rfl rfl (Or.inr rfl)

/-- Claim C2: auto-vivification. On the empty dict, the path consisting of
the keys a, b with dict suffix and c with list suffix, in create mode,
returns ([], true) and mutates the tree to nested dicts holding an empty
list; in general, a missing type-filtered key at a dict parent in create
mode is populated with a fresh empty instance of the filtered type, which
is returned directly when the remaining path is empty and recursed into
otherwise (the mutation staying visible at that key). -/
theorem c2_auto_vivification :
    (path_lookup (.vdict []) "a\x7b\x7d.b\x7b\x7d.c[]".data true
        = ⟨.ok (.vlist [], true),
           .vdict [("a".data, .vdict [("b".data, .vdict [("c".data, .vlist [])])])]⟩) ∧
    ∀ (p tok : List Char) (entries : List (List Char × JVal)) (t : TyFilter)
      (cl : List Char),
      ¬(p = [] ∨ p = ['.']) →
      (split p '.' 1 '\\').headD [] = tok →
      tok ≠ ['*'] → tok.headD ' ' ≠ '@' →
      _clean_key_type tok '\\' = (some t, cl) →
      dict_contains entries (unescape cl '\\') = false →
      path_lookup (.vdict entries) p true =
        (if (split p '.' 1 '\\').getD 1 [] = [] then
          ⟨.ok (tyFresh t, true), .vdict (dict_set entries (unescape cl '\\') (tyFresh t))⟩
        else
          ⟨(path_lookup (tyFresh t) ((split p '.' 1 '\\').getD 1 []) true).res,
           .vdict (dict_set (dict_set entries (unescape cl '\\') (tyFresh t))
             (unescape cl '\\')
             (path_lookup (tyFresh t) ((split p '.' 1 '\\').getD 1 []) true).obj)⟩) := by
  refine ⟨rfl, ?_⟩
  intro p tok entries t cl hb htop hstar hat hct habs
  rw [path_lookup_unfold]
  unfold pathStep
  rw [if_neg hb, htop, if_neg hstar, if_neg hat]
  simp only [hct, py_contains, habs]
  have hsuff := path_lookup_f_suff p.length ((split p '.' 1 '\\').getD 1 [])
      (split_getD_len p (fun h => hb (Or.inl h))) (tyFresh t) true
  by_cases hlo : (split p '.' 1 '\\').getD 1 [] = []
  · rw [if_pos hlo, if_neg (not_not_intro hlo)]
    simp
  · rw [if_neg hlo, if_pos hlo]
    rw [hsuff]
    simp only [py_setitem_str]
    simp

/-- Witness for C2's general clause: creating a single dict-filtered key on
the empty dict. -/
theorem c2_auto_vivification_witness :
    path_lookup (.vdict []) ['x', '\x7b', '\x7d'] true
      = ⟨.ok (tyFresh .tdict, true), .vdict (dict_set [] ['x'] (tyFresh .tdict))⟩ :=
  (c2_auto_vivification.2 ['x', '\x7b', '\x7d'] ['x', '\x7b', '\x7d'] [] .tdict ['x']
    (by decide) rfl (by decide) (by decide) rfl rfl).trans rfl

/-- The filtering projection a wildcard with sub-path performs: the values,
in iteration order, of the elements whose sub-lookup reported existence. -/
def keptValues (q : List Char) (c : Bool) (elems : List JVal) : List JVal :=
  elems.filterMap (fun d =>
    match (path_lookup d q c).res with
    | .ok (v, true) => some v
    | _ => none)

theorem subArrayList_go_ok (recur : JVal → List Char → Bool → LookupResult)
    (q : List Char) (c : Bool) :
    ∀ (elems : List JVal) (vals : List JVal) (elems2 : List JVal),
      subArrayList_go recur q c elems = (.ok vals, elems2) →
      vals = elems.filterMap (fun d =>
        match (recur d q c).res with
        | .ok (v, true) => some v
        | _ => none) := by
  intro elems
  induction elems with
  | nil =>
    intro vals elems2 h
    simp only [subArrayList_go] at h
    injection h with h1 _
    injection h1 with h1
    simp [← h1]
  | cons d rest ih =>
    intro vals elems2 h
    simp only [subArrayList_go] at h
    rcases hres : (recur d q c).res with e | ⟨val, ex⟩
    · rw [hres] at h
      simp at h
    · rw [hres] at h
      rcases hsub : subArrayList_go recur q c rest with ⟨acc, rest2⟩
      rw [hsub] at h
      rcases acc with e | vals'
      · rw [Prod.mk.injEq] at h
        exact absurd h.1 (by simp)
      · rw [Prod.mk.injEq] at h
        obtain ⟨h1, -⟩ := h
        injection h1 with h1
        have hv := ih vals' rest2 hsub
        cases ex with
        | true => simp [List.filterMap_cons, hres, ← h1, hv]
        | false => simp [List.filterMap_cons, hres, ← h1, hv]

theorem split_star_dot (q : List Char) :
    split ('*' :: '.' :: q) '.' 1 '\\' = [['*'], q] := by
  rw [split, splitAux.eq_def]
  simp only [reduceIte, Char.reduceEq]
  rw [splitAux.eq_def]
  simp only [reduceIte, Char.reduceEq]
  norm_num

/-- Claim C3: a wildcard over a Sequence of length N with an empty remaining
sub-path returns, with exists=true, a fresh tuple of length exactly N
holding the elements in original order; with a non-empty sub-path, whenever
it returns normally it returns exists=true and a tuple containing, in
iteration order, exactly the values of the elements whose recursive lookup
existed - a filtering projection of length at most N. -/
theorem c3_wildcard_over_sequence :
    ∀ (elems : List JVal) (c : Bool),
      (path_lookup (.vlist elems) ['*'] c
        = ⟨.ok (.vtuple elems, true), .vlist elems⟩) ∧
      ∀ (q : List Char), q ≠ [] →
        ∀ (out : JVal × Bool) (d2 : JVal),
          path_lookup (.vlist elems) ('*' :: '.' :: q) c = ⟨.ok out, d2⟩ →
          out = (.vtuple (keptValues q c elems), true) ∧
          (keptValues q c elems).length ≤ elems.length := by
  intro elems c
  refine ⟨rfl, ?_⟩
  intro q hq out d2 h
  rw [path_lookup_unfold] at h
  unfold pathStep at h
  rw [if_neg (by simp), split_star_dot] at h
  simp only [List.headD, List.getD, List.get?, Option.getD_some] at h
  rw [if_pos trivial] at h
  unfold _full_sub_array_go at h
  simp only [] at h
  rw [if_pos hq] at h
  rcases hsub : subArrayList_go (path_lookup_f ('*' :: '.' :: q).length) q c elems
      with ⟨acc, elems2⟩
  rw [hsub] at h
  rcases acc with e | vals
  · exact absurd (congrArg LookupResult.res h) (by simp)
  · have hout : out = (.vtuple vals, true) := by
      have := congrArg LookupResult.res h
      simp only [] at this
      injection this with this
      exact this.symm
    have hvals := subArrayList_go_ok (path_lookup_f ('*' :: '.' :: q).length) q c
        elems vals elems2 hsub
    have hfun : (fun d =>
        match (path_lookup_f ('*' :: '.' :: q).length d q c).res with
        | .ok (v, true) => some v
        | _ => none)
        = (fun d =>
        match (path_lookup d q c).res with
        | .ok (v, true) => some v
        | _ => none) := by
      funext d
      rw [path_lookup_f_suff ('*' :: '.' :: q).length q
        (by simp only [List.length_cons]; omega) d c]
    rw [hfun] at hvals
    have hkept : vals = keptValues q c elems := hvals
    constructor
    · rw [hout, hkept]
    · rw [← hkept, hvals]
      exact List.length_filterMap_le _ _

/-- Witness for C3's filtering clause: over a two-element list, the sub-path
selecting key s exists only in the first element. -/
theorem c3_wildcard_over_sequence_witness :
    ((.vtuple [.vint 5], true)
      = ((.vtuple (keptValues ['s'] false [.vdict [(['s'], .vint 5)], .vdict []]), true)
        : JVal × Bool)) ∧
    (keptValues ['s'] false [.vdict [(['s'], .vint 5)], .vdict []]).length ≤ 2 :=
  (c3_wildcard_over_sequence [.vdict [(['s'], .vint 5)], .vdict []] false).2 ['s']
    (by decide) (.vtuple [.vint 5], true)
    (.vlist [.vdict [(['s'], .vint 5)], .vdict []]) rfl

/-- Decomposition of a string into escape blocks: each block is either a
single non-escape character or an escape character with the character it
protects; a trailing lone escape is set apart. -/
def escBlocks : List Char → List (List Char) × List Char
  | [] => ([], [])
  | ['\\'] => ([], ['\\'])
  | '\\' :: c :: r => (['\\', c] :: (escBlocks r).1, (escBlocks r).2)
  | c :: r => ([c] :: (escBlocks r).1, (escBlocks r).2)

/-- A well-formed escape block. -/
def escBlockOk (b : List Char) : Prop :=
  (∃ c, b = [c] ∧ c ≠ '\\') ∨ (∃ c, b = ['\\', c])

/-- What a block contributes to the unescaped output: the protected
character for an escape pair, the character itself otherwise. -/
def blockPayload : List Char → List Char
  | '\\' :: c :: _ => [c]
  | b => b

theorem blockPayload_single (c : Char) : blockPayload [c] = [c] :=
  blockPayload.eq_2 [c] (fun c2 tl h => by simp at h)

/-- Claim C9: every input string decomposes into escape blocks followed by
at most one trailing lone escape, and unescape maps each escape pair to its
protected character (one-for-one), keeps plain characters, and drops the
trailing lone escape entirely; being total, it never raises. -/
theorem c9_unescape_escape_semantics :
    ∀ (s : List Char),
      (escBlocks s).1.flatten ++ (escBlocks s).2 = s ∧
      ((escBlocks s).2 = [] ∨ (escBlocks s).2 = ['\\']) ∧
      (∀ b ∈ (escBlocks s).1, escBlockOk b) ∧
      unescape s '\\' = ((escBlocks s).1.map blockPayload).flatten := by
  intro s
  induction s using escBlocks.induct with
  | case1 =>
    exact ⟨rfl, Or.inl rfl, by simp [escBlocks], rfl⟩
  | case2 =>
    exact ⟨rfl, Or.inr rfl, by simp [escBlocks], rfl⟩
  | case3 c r ih =>
    obtain ⟨ih1, ih2, ih3, ih4⟩ := ih
    refine ⟨?_, ?_, ?_, ?_⟩
    · simp only [escBlocks, List.flatten_cons, List.append_assoc, ih1]
      rfl
    · simpa [escBlocks] using ih2
    · intro b hb
      simp only [escBlocks, List.mem_cons] at hb
      rcases hb with rfl | hb
      · exact Or.inr ⟨c, rfl⟩
      · exact ih3 b hb
    · simp only [escBlocks, unescape.eq_3, if_pos rfl, List.map_cons, List.flatten_cons]
      rw [ih4]
      rfl
  | case4 c r h1 h2 ih =>
    have hne : c ≠ '\\' := by
      intro hc
      cases r with
      | nil => exact h1 hc rfl
      | cons c1 r1 => exact h2 c1 r1 hc rfl
    obtain ⟨ih1, ih2, ih3, ih4⟩ := ih
    have heq := escBlocks.eq_4 c r h1 h2
    refine ⟨?_, ?_, ?_, ?_⟩
    · simp only [heq, List.flatten_cons, List.append_assoc, ih1]
      rfl
    · simpa [heq] using ih2
    · intro b hb
      simp only [heq, List.mem_cons] at hb
      rcases hb with rfl | hb
      · exact Or.inl ⟨c, rfl, hne⟩
      · exact ih3 b hb
    · cases r with
      | nil =>
        rw [unescape.eq_2, if_neg hne]
        simp [heq, blockPayload_single, escBlocks, unescape]
      | cons d rest =>
        simp only [heq, unescape.eq_3, if_neg hne, List.map_cons, List.flatten_cons]
        rw [ih4, blockPayload_single]
        rfl

/-! ### Claim C5: the escaping round-trip -/

/-- The characters the path grammar reserves: the separator, the index and
wildcard markers, the escape character itself, and every type-suffix
character. -/
def specialChars : List Char :=
  ['.', '@', '*', '\\', '$', '#', '%', '\x7b', '\x7d', '[', ']', '(', ')']

/-- Whether a character is special. -/
def isSpecial (c : Char) : Bool := specialChars.contains c

/-- The path a caller builds for a literal key: every special character is
preceded by the escape character. -/
def escapeKey (k : List Char) : List Char :=
  k.flatMap (fun c => if isSpecial c then ['\\', c] else [c])

/-- What the tokenizer turns `escapeKey k` into: escaped separators collapse
to the bare separator, every other escape is retained for the later
segment-local unescape. -/
def splitTok (k : List Char) : List Char :=
  k.flatMap (fun c => if c = '.' then [c] else if isSpecial c then ['\\', c] else [c])

theorem splitTok_append (a b : List Char) :
    splitTok (a ++ b) = splitTok a ++ splitTok b := by
  unfold splitTok
  exact List.flatMap_append a b _

/-- Tokenizing a fully escaped key never splits and produces `splitTok`. -/
theorem splitAux_escapeKey (ms : Int) :
    ∀ (k acc : List Char),
      splitAux '.' '\\' (escapeKey k) ms acc = [acc ++ splitTok k] := by
  intro k
  induction k with
  | nil => intro acc; simp [escapeKey, splitTok, splitAux]
  | cons c k' ih =>
    intro acc
    by_cases hs : isSpecial c = true
    · have he : escapeKey (c :: k') = '\\' :: c :: escapeKey k' := by
        simp [escapeKey, hs]
      rw [he, splitAux.eq_def]
      simp only [reduceIte, Char.reduceEq]
      by_cases hc : c = '.'
      · rw [if_pos hc]
        rw [ih (acc ++ [c])]
        subst hc
        simp [splitTok, List.append_assoc]
      · rw [if_neg hc]
        rw [ih (acc ++ ['\\', c])]
        have ht : splitTok (c :: k') = '\\' :: c :: splitTok k' := by
          simp [splitTok, hc, hs]
        rw [ht]
        simp [List.append_assoc]
    · have hdot : ¬ c = '.' := by
        intro hc
        subst hc
        simp [isSpecial, specialChars] at hs
      have hesc : ¬ c = '\\' := by
        intro hc
        subst hc
        simp [isSpecial, specialChars] at hs
      have he : escapeKey (c :: k') = c :: escapeKey k' := by
        simp [escapeKey, hs]
      rw [he, splitAux_cons]
      rw [if_neg hesc]
      rw [if_neg hdot]
      rw [ih (acc ++ [c])]
      have ht : splitTok (c :: k') = c :: splitTok k' := by
        simp [splitTok, hdot, hs]
      rw [ht]
      simp [List.append_assoc]

theorem split_escapeKey (k : List Char) :
    split (escapeKey k) '.' 1 '\\' = [splitTok k] := by
  rw [split, splitAux_escapeKey]
  rfl

/-- Unescaping a token produced from a fully escaped key restores the key. -/
theorem unescape_splitTok :
    ∀ (k : List Char), unescape (splitTok k) '\\' = k := by
  intro k
  induction k with
  | nil => rfl
  | cons c k' ih =>
    by_cases hc : c = '.'
    · subst hc
      have ht : splitTok ('.' :: k') = '.' :: splitTok k' := by simp [splitTok]
      rw [ht]
      cases h : splitTok k' with
      | nil =>
        rw [unescape.eq_2, if_neg (by decide)]
        rw [h] at ih
        simp [unescape] at ih
        simp [ih, unescape]
      | cons d rest =>
        rw [unescape.eq_3, if_neg (by decide), ← h, ih]
    · by_cases hs : isSpecial c = true
      · have ht : splitTok (c :: k') = '\\' :: c :: splitTok k' := by
          simp [splitTok, hc, hs]
        rw [ht, unescape.eq_3, if_pos rfl, ih]
      · have hesc : ¬ c = '\\' := by
          intro h
          subst h
          simp [isSpecial, specialChars] at hs
        have ht : splitTok (c :: k') = c :: splitTok k' := by
          simp [splitTok, hc, hs]
        rw [ht]
        cases h : splitTok k' with
        | nil =>
          rw [unescape.eq_2, if_neg hesc]
          rw [h] at ih
          simp [unescape] at ih
          simp [ih, unescape]
        | cons d rest =>
          rw [unescape.eq_3, if_neg hesc, ← h, ih]

/-- The trailing escape run of a token built from a fully escaped key has
even length (each special character contributes an escape pair). -/
theorem splitTok_trailing_even :
    ∀ (k : List Char), esc_cnt_rev '\\' (splitTok k).reverse % 2 = 0 := by
  intro k
  induction k using List.reverseRecOn with
  | nil => rfl
  | append_singleton k' c ih =>
    rw [splitTok_append]
    by_cases hdot : c = '.'
    · subst hdot
      have hX : splitTok ['.'] = ['.'] := rfl
      rw [hX]
      simp [esc_cnt_rev]
    · by_cases hs : isSpecial c = true
      · by_cases hesc : c = '\\'
        · subst hesc
          have hX : splitTok ['\\'] = ['\\', '\\'] := rfl
          rw [hX]
          simp only [List.reverse_append, List.reverse_cons, List.reverse_nil,
            List.nil_append, List.cons_append, esc_cnt_rev, if_pos rfl, if_true]
          omega
        · have hX : splitTok [c] = ['\\', c] := by simp [splitTok, hdot, hs]
          rw [hX]
          simp [esc_cnt_rev, hesc]
      · have hesc : ¬ c = '\\' := by
          intro h
          subst h
          simp [isSpecial, specialChars] at hs
        have hX : splitTok [c] = [c] := by simp [splitTok, hdot, hs]
        rw [hX]
        simp [esc_cnt_rev, hesc]

theorem keySplit_pair_backslash (z : Char) : keySplitLookup ['\\', z] = none := by
  simp [keySplitLookup]

theorem keySplit_one_none (z : Char) (h1 : z ≠ '$') (h2 : z ≠ '#') (h3 : z ≠ '%') :
    keySplitLookup [z] = none := by
  simp [keySplitLookup, h1, h2, h3]

theorem keySplit_pair_none (y z : Char) (h1 : z ≠ '\x7d') (h2 : z ≠ ']') (h3 : z ≠ ')') :
    keySplitLookup [y, z] = none := by
  simp [keySplitLookup, h1, h2, h3]

/-- A token ending in a character that ends no marker keeps no type. -/
theorem clean_end_nonmarker (t : List Char) (z : Char)
    (hz1 : z ≠ '$') (hz2 : z ≠ '#') (hz3 : z ≠ '%')
    (hz4 : z ≠ '\x7d') (hz5 : z ≠ ']') (hz6 : z ≠ ')') :
    _clean_key_type (t ++ [z]) '\\' = (none, t ++ [z]) := by
  unfold _clean_key_type
  by_cases hlen : (t ++ [z]).length < 2
  · rw [if_pos hlen]
  · rw [if_neg hlen]
    have hne : t ≠ [] := by
      intro h
      subst h
      simp at hlen
    obtain ⟨t2, y, rfl⟩ : ∃ t2 y, t = t2 ++ [y] := by
      rcases List.eq_nil_or_concat t with h | ⟨t2, y, h⟩
      · exact absurd h hne
      · exact ⟨t2, y, by rw [h, List.concat_eq_append]⟩
    have hl2 : lastN (t2 ++ [y] ++ [z]) 2 = [y, z] := by
      unfold lastN
      simp
    have hl1 : lastN (t2 ++ [y] ++ [z]) 1 = [z] := by
      unfold lastN
      simp
    simp only [hl2, keySplit_pair_none y z hz4 hz5 hz6]
    rw [if_neg (by simp)]
    simp only [hl1, keySplit_one_none z hz1 hz2 hz3]

/-- A token ending in an escape pair whose protected character is not a
one-character marker keeps no type. -/
theorem clean_backslash_pair_end (t : List Char) (z : Char)
    (hz1 : z ≠ '$') (hz2 : z ≠ '#') (hz3 : z ≠ '%') :
    _clean_key_type (t ++ ['\\', z]) '\\' = (none, t ++ ['\\', z]) := by
  unfold _clean_key_type
  have hlen : ¬ (t ++ ['\\', z]).length < 2 := by simp
  rw [if_neg hlen]
  have hl2 : lastN (t ++ ['\\', z]) 2 = ['\\', z] := by
    unfold lastN
    simp
  have hl1 : lastN (t ++ ['\\', z]) 1 = [z] := by
    unfold lastN
    simp
  simp only [hl2, keySplit_pair_backslash z]
  rw [if_neg (by simp)]
  simp only [hl1, keySplit_one_none z hz1 hz2 hz3]

/-- A token ending in an escaped one-character marker keeps no type: the
escape run before the marker has odd length. -/
theorem clean_escaped_marker (t : List Char) (z : Char)
    (heven : esc_cnt_rev '\\' t.reverse % 2 = 0)
    (hz : z = '$' ∨ z = '#' ∨ z = '%') :
    _clean_key_type (t ++ ['\\', z]) '\\' = (none, t ++ ['\\', z]) := by
  unfold _clean_key_type
  have hlen : ¬ (t ++ ['\\', z]).length < 2 := by simp
  rw [if_neg hlen]
  have hl2 : lastN (t ++ ['\\', z]) 2 = ['\\', z] := by
    unfold lastN
    simp
  have hl1 : lastN (t ++ ['\\', z]) 1 = [z] := by
    unfold lastN
    simp
  have hd1 : dropLastN (t ++ ['\\', z]) 1 = t ++ ['\\'] := by
    unfold dropLastN
    simp
  have hcnt : ¬ esc_cnt_rev '\\' (dropLastN (t ++ ['\\', z]) 1).reverse % 2 = 0 := by
    rw [hd1]
    simp only [List.reverse_append, List.reverse_cons, List.reverse_nil,
      List.nil_append, List.cons_append, esc_cnt_rev, if_pos rfl, if_true]
    omega
  simp only [hl2, keySplit_pair_backslash z]
  rw [if_neg (by simp)]
  rcases hz with rfl | rfl | rfl <;>
    simp [hl1, keySplitLookup, hcnt]

/-- The token produced from a fully escaped key never carries a type
filter: any apparent marker at its end is escaped. -/
theorem clean_splitTok :
    ∀ (k : List Char), _clean_key_type (splitTok k) '\\' = (none, splitTok k) := by
  intro k
  induction k using List.reverseRecOn with
  | nil => rfl
  | append_singleton k' c _ =>
    rw [splitTok_append]
    by_cases hdot : c = '.'
    · subst hdot
      exact clean_end_nonmarker _ '.' (by decide) (by decide) (by decide) (by decide)
        (by decide) (by decide)
    · by_cases hs : isSpecial c = true
      · have hX : splitTok [c] = ['\\', c] := by simp [splitTok, hdot, hs]
        rw [hX]
        by_cases hm : c = '$' ∨ c = '#' ∨ c = '%'
        · exact clean_escaped_marker (splitTok k') c (splitTok_trailing_even k') hm
        · push_neg at hm
          exact clean_backslash_pair_end _ c hm.1 hm.2.1 hm.2.2
      · have hX : splitTok [c] = [c] := by simp [splitTok, hdot, hs]
        rw [hX]
        exact clean_end_nonmarker _ c
          (by rintro rfl; exact hs (by decide))
          (by rintro rfl; exact hs (by decide))
          (by rintro rfl; exact hs (by decide))
          (by rintro rfl; exact hs (by decide))
          (by rintro rfl; exact hs (by decide))
          (by rintro rfl; exact hs (by decide))

theorem escapeKey_not_base (k : List Char) (hk : k ≠ []) :
    ¬(escapeKey k = [] ∨ escapeKey k = ['.']) := by
  obtain ⟨c, k', rfl⟩ : ∃ c k', k = c :: k' := by
    cases k with
    | nil => exact absurd rfl hk
    | cons c k' => exact ⟨c, k', rfl⟩
  by_cases hs : isSpecial c = true
  · have he : escapeKey (c :: k') = '\\' :: c :: escapeKey k' := by simp [escapeKey, hs]
    rw [he]
    rintro (h | h) <;> simp at h
  · have he : escapeKey (c :: k') = c :: escapeKey k' := by simp [escapeKey, hs]
    rw [he]
    rintro (h | h)
    · simp at h
    · simp at h
      exact hs (by rw [h.1]; decide)

theorem splitTok_ne_star (k : List Char) : splitTok k ≠ ['*'] := by
  cases k with
  | nil => simp [splitTok]
  | cons c k' =>
    by_cases hdot : c = '.'
    · subst hdot
      have ht : splitTok ('.' :: k') = '.' :: splitTok k' := by simp [splitTok]
      rw [ht]
      intro h
      simp at h
    · by_cases hs : isSpecial c = true
      · have ht : splitTok (c :: k') = '\\' :: c :: splitTok k' := by
          simp [splitTok, hdot, hs]
        rw [ht]
        intro h
        simp at h
      · have ht : splitTok (c :: k') = c :: splitTok k' := by simp [splitTok, hdot, hs]
        rw [ht]
        intro h
        simp at h
        exact hs (by rw [h.1]; decide)

theorem splitTok_head_ne_at (k : List Char) : (splitTok k).headD ' ' ≠ '@' := by
  cases k with
  | nil => simp [splitTok]
  | cons c k' =>
    by_cases hdot : c = '.'
    · subst hdot
      have ht : splitTok ('.' :: k') = '.' :: splitTok k' := by simp [splitTok]
      rw [ht]
      simp
    · by_cases hs : isSpecial c = true
      · have ht : splitTok (c :: k') = '\\' :: c :: splitTok k' := by
          simp [splitTok, hdot, hs]
        rw [ht]
        simp
      · have ht : splitTok (c :: k') = c :: splitTok k' := by simp [splitTok, hdot, hs]
        rw [ht]
        intro h
        simp at h
        exact hs (by rw [h]; decide)

/-- Claim C5: escaping round-trip. For every mapping key containing a
special character (separator, '@', '*', the escape character, or a
type-suffix character), looking up the path built by preceding each special
character with the escape character, against a dict containing that literal
key, returns the stored value with exists=true (and touches nothing). -/
theorem c5_escape_roundtrip (k : List Char) (entries : List (List Char × JVal))
    (hs : k.any (fun c => isSpecial c) = true)
    (hmem : dict_contains entries k = true) :
    path_lookup (.vdict entries) (escapeKey k) false
      = ⟨.ok (dict_get entries k, true), .vdict entries⟩ := by
  have hk : k ≠ [] := by
    rintro rfl
    simp at hs
  rw [path_lookup_unfold]
  unfold pathStep
  rw [if_neg (escapeKey_not_base k hk)]
  rw [split_escapeKey]
  have h1 : ([splitTok k]).headD ([] : List Char) = splitTok k := rfl
  have h2 : ([splitTok k]).getD 1 ([] : List Char) = [] := rfl
  rw [h1, h2]
  rw [if_neg (splitTok_ne_star k), if_neg (splitTok_head_ne_at k)]
  simp only [clean_splitTok k, unescape_splitTok, py_contains, hmem]
  simp [py_getitem_str, typeMismatch]

/-- Witness for C5: the key containing a literal separator round-trips. -/
theorem c5_escape_roundtrip_witness :
    path_lookup (.vdict [(['v', '.', 'v'], .vint 31)])
        (escapeKey ['v', '.', 'v']) false
      = ⟨.ok (dict_get [(['v', '.', 'v'], .vint 31)] ['v', '.', 'v'], true),
         .vdict [(['v', '.', 'v'], .vint 31)]⟩ :=
  c5_escape_roundtrip ['v', '.', 'v'] [(['v', '.', 'v'], .vint 31)]
    (by decide) (by decide)
